import Mathlib

/-!
# Verification of the SIGPRINT enhanced firmware core

A shallow embedding of the signal-processing and packetization core of the
SIGPRINT firmware (src/main_enhanced.cpp): the multi-band lock-in demodulator
(`MultiBandLockIn`), the fingerprint composer (`SigprintComposer::compose`),
and the fixed 383-byte packet codec (`encodePacket` / `crc16_ccitt`).

Modelling conventions:
* C++ `float` arithmetic is idealized as real arithmetic (`ℝ`); `lroundf` on
  the (clamped, effectively non-negative) quantities of this program is
  `round`, `atan2f` is the argument of the complex number `x + y i`.
* machine integers are `ℕ` / `ℤ` with explicit `% 2^w` where wrap-around or
  two's-complement reinterpretation matters;
* the serialized IEEE-754 `f32` fields of the packet are handled as their
  32-bit patterns (`ℕ < 2^32`), since the codec only copies their bytes.
-/

set_option maxRecDepth 8000

namespace Sigprint

/-- `clampValue` of the source: `std::max(min_v, std::min(max_v, value))`. -/
def clampValue {α : Type*} [LinearOrder α] (value minV maxV : α) : α :=
  max minV (min maxV value)

/-- `atan2f(y, x)` idealized: the principal argument of `x + y i`. -/
noncomputable def atan2 (y x : ℝ) : ℝ :=
  Complex.arg ⟨x, y⟩

/-- Center frequencies of the `kBands` table (delta, theta, alpha, beta, gamma). -/
noncomputable def bandCenter : Fin 5 → ℝ := fun b =>
  if b.val = 0 then 2.5 else if b.val = 1 then 6.0 else if b.val = 2 then 10.0
  else if b.val = 3 then 20.0 else 40.0

/-- Bandwidths of the `kBands` table. -/
noncomputable def bandBandwidth : Fin 5 → ℝ := fun b =>
  if b.val = 0 then 3.0 else if b.val = 1 then 3.0 else if b.val = 2 then 3.0
  else if b.val = 3 then 10.0 else 20.0

/-- Weights of the `kBands` table. -/
noncomputable def bandWeight : Fin 5 → ℝ := fun b =>
  if b.val = 0 then 0.15 else if b.val = 1 then 0.20 else if b.val = 2 then 0.30
  else if b.val = 3 then 0.20 else 0.15

/-- Per-band demodulator state (`MultiBandLockIn::BandState`). -/
structure BandState where
  refSin : Fin 250 → ℝ
  refCos : Fin 250 → ℝ
  filterAlpha : ℝ
  i : ℝ
  q : ℝ
  amplitude : ℝ
  phase : ℝ

/-- One channel's `MultiBandLockIn`: five band states plus the reference cursor. -/
structure MultiBandLockIn where
  bands : Fin 5 → BandState
  index : ℕ

/-- `MultiBandLockIn::reset`: precompute the filter coefficient and one second
of reference sine/cosine samples, zero the estimates, rewind the cursor. -/
noncomputable def lockInReset : MultiBandLockIn where
  bands := fun b =>
    { refSin := fun k => Real.sin (2 * Real.pi * bandCenter b * (k.val : ℝ) / 250)
      refCos := fun k => Real.cos (2 * Real.pi * bandCenter b * (k.val : ℝ) / 250)
      filterAlpha :=
        clampValue (Real.exp (-(2 * Real.pi) * max 0.1 (bandBandwidth b) / 250)) 0 0.9995
      i := 0
      q := 0
      amplitude := 0
      phase := 0 }
  index := 0

/-- `MultiBandLockIn::process(sample_uv)`: demodulate against each band's
reference, one-pole IIR on I/Q, refresh amplitude and phase, advance the
cursor modulo 250.  (The source indexes the tables with the stored cursor,
which it keeps below 250; the embedding reduces it modulo 250.) -/
noncomputable def lockInProcess (st : MultiBandLockIn) (sample : ℝ) : MultiBandLockIn where
  bands := fun b =>
    let s := st.bands b
    let idx : Fin 250 := ⟨st.index % 250, Nat.mod_lt _ (by norm_num)⟩
    let iRaw := sample * s.refCos idx
    let qRaw := sample * s.refSin idx
    let beta := 1 - s.filterAlpha
    let iNew := s.filterAlpha * s.i + beta * iRaw
    let qNew := s.filterAlpha * s.q + beta * qRaw
    { s with
      i := iNew
      q := qNew
      amplitude := 2 * Real.sqrt (iNew * iNew + qNew * qNew)
      phase := atan2 qNew iNew }
  index := (st.index + 1) % 250

/-- `MultiBandLockIn::snapshot`: read the per-band amplitudes and phases. -/
noncomputable def lockInSnapshot (st : MultiBandLockIn) : (Fin 5 → ℝ) × (Fin 5 → ℝ) :=
  (fun b => (st.bands b).amplitude, fun b => (st.bands b).phase)

/-- 8×5 channel/band matrix (the source's `BandMatrix`). -/
abbrev BandMatrix := Fin 8 → Fin 5 → ℝ

/-- The composer's output value object (`SigprintResult`). -/
structure SigprintResult where
  digits : Fin 20 → ℕ
  coherence : ℝ
  gate_flags : ℕ
  loop_flags : ℕ
  entropy : ℝ

/-- Persistent `SigprintComposer` state. -/
structure ComposerState where
  initialized : Bool
  previousPower : Fin 5 → ℝ
  history : Fin 5 → Fin 64 → ℝ
  historyIndex : Fin 5 → ℕ
  fillCount : Fin 5 → ℕ

/-- The freshly constructed composer: everything zeroed, not yet initialized. -/
def composerInit : ComposerState where
  initialized := false
  previousPower := fun _ => 0
  history := fun _ _ => 0
  historyIndex := fun _ => 0
  fillCount := fun _ => 0

/-- `avg_power[band]`: mean of one band's amplitudes across the 8 channels. -/
noncomputable def avgPower (amp : BandMatrix) (b : Fin 5) : ℝ :=
  (∑ c : Fin 8, amp c b) / 8

/-- `band_coherence[band]`: clamped mean resultant length of the band's phases. -/
noncomputable def bandCoherence (phases : BandMatrix) (b : Fin 5) : ℝ :=
  let sinSum := ∑ c : Fin 8, Real.sin (phases c b)
  let cosSum := ∑ c : Fin 8, Real.cos (phases c b)
  clampValue (Real.sqrt (sinSum * sinSum + cosSum * cosSum) / 8) 0 1

/-- `result.coherence`: weighted, clamped global coherence. -/
noncomputable def globalCoherence (phases : BandMatrix) : ℝ :=
  clampValue (∑ b : Fin 5, bandCoherence phases b * bandWeight b) 0 1

/-- `LEFT_INDICES` of the source. -/
def LEFT_INDICES : List (Fin 8) := [0, 2, 4, 6]

/-- `RIGHT_INDICES` of the source. -/
def RIGHT_INDICES : List (Fin 8) := [1, 3, 5, 7]

/-- The `mean_angle` lambda: circular mean of the alpha-band (band 2) phases
over the given channel list. -/
noncomputable def meanAngle (phases : BandMatrix) (idxs : List (Fin 8)) : ℝ :=
  let sinSum := (idxs.map fun c => Real.sin (phases c 2)).sum
  let cosSum := (idxs.map fun c => Real.cos (phases c 2)).sum
  atan2 (sinSum / idxs.length) (cosSum / idxs.length)

/-- `phase_diff_deg` after the two normalizing while-loops: the left/right
alpha phase difference in degrees reduced into `[0, 360)`.  (For the finite
values this program produces, the loops compute exactly reduction mod 360.) -/
noncomputable def phaseDiffDeg (phases : BandMatrix) : ℝ :=
  let d := (meanAngle phases LEFT_INDICES - meanAngle phases RIGHT_INDICES) * 180 / Real.pi
  d - 360 * ⌊d / 360⌋

/-- `phase_metric`: the rounded, clamped phase-offset value (0–99). -/
noncomputable def phaseMetric (phases : BandMatrix) : ℤ :=
  clampValue (round (phaseDiffDeg phases / 3.6)) 0 99

/-- `left_power_alpha`: total alpha amplitude of the left channels. -/
noncomputable def leftAlphaPower (amp : BandMatrix) : ℝ :=
  (LEFT_INDICES.map fun c => amp c 2).sum

/-- `right_power_alpha`: total alpha amplitude of the right channels. -/
noncomputable def rightAlphaPower (amp : BandMatrix) : ℝ :=
  (RIGHT_INDICES.map fun c => amp c 2).sum

/-- `lr_ratio`: the left share of alpha power scaled to 0–99. -/
noncomputable def lrValue (amp : BandMatrix) : ℤ :=
  clampValue
    (round (leftAlphaPower amp / (leftAlphaPower amp + rightAlphaPower amp + 1e-6) * 99))
    0 99

/-- `FRONTAL` channel set of the source. -/
def FRONTAL : List (Fin 8) := [0, 1, 2, 3]

/-- `OCCIPITAL` channel set of the source. -/
def OCCIPITAL : List (Fin 8) := [6, 7]

/-- `frontal_sum`: all-band amplitude total over the frontal channels. -/
noncomputable def frontalSum (amp : BandMatrix) : ℝ :=
  (FRONTAL.map fun c => ∑ b : Fin 5, amp c b).sum

/-- `occipital_sum`: all-band amplitude total over the occipital channels. -/
noncomputable def occipitalSum (amp : BandMatrix) : ℝ :=
  (OCCIPITAL.map fun c => ∑ b : Fin 5, amp c b).sum

/-- `frontal_pct` (0–99). -/
noncomputable def frontalPct (amp : BandMatrix) : ℤ :=
  clampValue
    (round (frontalSum amp / (frontalSum amp + occipitalSum amp + 1e-6) * 99)) 0 99

/-- `occipital_pct` (0–99). -/
noncomputable def occipitalPct (amp : BandMatrix) : ℤ :=
  clampValue
    (round (occipitalSum amp / (frontalSum amp + occipitalSum amp + 1e-6) * 99)) 0 99

/-- `coherence_value` (0–9999). -/
noncomputable def coherenceValue (phases : BandMatrix) : ℤ :=
  clampValue (round (globalCoherence phases * 9999)) 0 9999

/-- The compressed weighted band-power digit at position `12 + b` (0–9). -/
noncomputable def bandDigit (amp : BandMatrix) (b : Fin 5) : ℕ :=
  let weighted := avgPower amp b * bandWeight b
  let normalized := weighted / (weighted + 25)
  (clampValue (round (normalized * 9)) 0 9).toNat

/-- The first 18 fingerprint digits, in source order. -/
noncomputable def digitsMain (amp phases : BandMatrix) (stageHint : ℕ) : Fin 18 → ℕ :=
  fun i =>
    if i.val = 0 then (phaseMetric phases / 10).toNat
    else if i.val = 1 then (phaseMetric phases % 10).toNat
    else if i.val = 2 then (lrValue amp / 10).toNat
    else if i.val = 3 then (lrValue amp % 10).toNat
    else if i.val = 4 then (frontalPct amp / 10).toNat
    else if i.val = 5 then (frontalPct amp % 10).toNat
    else if i.val = 6 then (occipitalPct amp / 10).toNat
    else if i.val = 7 then (occipitalPct amp % 10).toNat
    else if i.val = 8 then ((coherenceValue phases / 1000) % 10).toNat
    else if i.val = 9 then ((coherenceValue phases / 100) % 10).toNat
    else if i.val = 10 then ((coherenceValue phases / 10) % 10).toNat
    else if i.val = 11 then (coherenceValue phases % 10).toNat
    else if i.val = 12 then bandDigit amp 0
    else if i.val = 13 then bandDigit amp 1
    else if i.val = 14 then bandDigit amp 2
    else if i.val = 15 then bandDigit amp 3
    else if i.val = 16 then bandDigit amp 4
    else stageHint % 10

/-- `checksum_val`: the digit sum of positions 0–17 reduced mod 97. -/
noncomputable def checksumVal (amp phases : BandMatrix) (stageHint : ℕ) : ℕ :=
  (∑ i : Fin 18, digitsMain amp phases stageHint i) % 97

/-- The full 20-digit fingerprint: positions 0–17 plus the two checksum digits. -/
noncomputable def sigDigits (amp phases : BandMatrix) (stageHint : ℕ) : Fin 20 → ℕ :=
  fun i =>
    if h : i.val < 18 then digitsMain amp phases stageHint ⟨i.val, h⟩
    else if i.val = 18 then (checksumVal amp phases stageHint / 10) % 10
    else checksumVal amp phases stageHint % 10

/-- Number of occurrences of the decimal value `k` among the 20 digits
(the `digit_counts` histogram). -/
def digitCount (d : Fin 20 → ℕ) (k : ℕ) : ℕ :=
  (Finset.univ.filter fun i => d i = k).card

/-- Shannon entropy (base 2) of the digit histogram; zero-count bins are
skipped exactly as in the source loop. -/
noncomputable def entropyOf (d : Fin 20 → ℕ) : ℝ :=
  ∑ k ∈ Finset.range 10,
    (if digitCount d k = 0 then 0
     else -(((digitCount d k : ℝ) / 20) * (Real.log ((digitCount d k : ℝ) / 20) / Real.log 2)))

/-- `delta` of the gate detector for band `b`. -/
noncomputable def gateDelta (st : ComposerState) (amp : BandMatrix) (b : Fin 5) : ℝ :=
  |avgPower amp b - st.previousPower b| / max (st.previousPower b) 1e-3

/-- A 5-bit flag byte: bit `b` is set exactly when `P b` holds (the functional
rendering of the source loop that ORs `1 << band` into a flag byte). -/
noncomputable def bitmaskOfProp (P : Fin 5 → Prop) [DecidablePred P] : ℕ :=
  ∑ b : Fin 5, if P b then 2 ^ b.val else 0

/-- The per-band ring buffer right after `history_[band][head] = avg_power[band]`
(the source writes at the stored head, which it keeps below 64; the embedding
reduces it modulo 64). -/
noncomputable def historyAfterWrite (st : ComposerState) (amp : BandMatrix) :
    Fin 5 → Fin 64 → ℝ := fun b j =>
  if j.val = st.historyIndex b % 64 then avgPower amp b else st.history b j

/-- `history_fill_count_[band]` after its saturating increment. -/
def fillAfter (st : ComposerState) (b : Fin 5) : ℕ :=
  if st.fillCount b < 64 then st.fillCount b + 1 else st.fillCount b

/-- `reference`: the ring-buffer entry `lookback = 20` slots back, read after
the current mean has been written. -/
noncomputable def loopRef (st : ComposerState) (amp : BandMatrix) (b : Fin 5) : ℝ :=
  historyAfterWrite st amp b ⟨(st.historyIndex b % 64 + 64 - 20) % 64, by omega⟩

/-- `deviation` of the loop detector for band `b`. -/
noncomputable def loopDeviation (st : ComposerState) (amp : BandMatrix) (b : Fin 5) : ℝ :=
  |avgPower amp b - loopRef st amp b| / max (loopRef st amp b) 1e-3

/-- The `SigprintResult` produced by `SigprintComposer::compose`. -/
noncomputable def composeResult (st : ComposerState) (amp phases : BandMatrix)
    (stageHint : ℕ) : SigprintResult where
  digits := sigDigits amp phases stageHint
  coherence := globalCoherence phases
  gate_flags :=
    bitmaskOfProp fun b => st.initialized = true ∧ 0.35 ≤ gateDelta st amp b
  loop_flags :=
    bitmaskOfProp fun b =>
      st.initialized = true ∧ 20 < fillAfter st b ∧ loopDeviation st amp b ≤ 0.05
  entropy := entropyOf (sigDigits amp phases stageHint)

/-- The composer state after `SigprintComposer::compose`. -/
noncomputable def composeState (st : ComposerState) (amp : BandMatrix) : ComposerState where
  initialized := true
  previousPower := fun b => avgPower amp b
  history := historyAfterWrite st amp
  historyIndex := fun b => (st.historyIndex b % 64 + 1) % 64
  fillCount := fillAfter st

/-- `SigprintComposer::compose`: result plus updated state. -/
noncomputable def compose (st : ComposerState) (amp phases : BandMatrix)
    (stageHint : ℕ) : SigprintResult × ComposerState :=
  (composeResult st amp phases stageHint, composeState st amp)

/-- Composer state after `n` compose calls from a fresh composer, fed the
`n`-th matrices/stage of the given streams. -/
noncomputable def composeTrace (ampSeq phaseSeq : ℕ → BandMatrix) (stageSeq : ℕ → ℕ) :
    ℕ → ComposerState
  | 0 => composerInit
  | n + 1 => (compose (composeTrace ampSeq phaseSeq stageSeq n) (ampSeq n) (phaseSeq n)
      (stageSeq n)).2

/-! ## Packet codec

The serializer works on bytes only, so it is embedded computably: `f32`
fields enter as their 32-bit patterns, the raw samples as mathematical
integers reinterpreted in two's complement. -/

/-- One inner round of `crc16_ccitt`: shift, conditionally xor `0x1021`,
truncated back to 16 bits (the `uint16_t` casts of the source). -/
def crcRound (c : ℕ) : ℕ :=
  if c &&& 0x8000 ≠ 0 then ((c <<< 1) ^^^ 0x1021) % 65536 else (c <<< 1) % 65536

/-- Absorb one data byte into the CRC state: xor it in at the top, then run
the 8 bit rounds. -/
def crcByte (c b : ℕ) : ℕ :=
  crcRound^[8] (c ^^^ (b <<< 8))

/-- `crc16_ccitt`: polynomial `0x1021`, init `0xFFFF`, no reflection, no
final xor. -/
def crc16_ccitt (data : List ℕ) : ℕ :=
  data.foldl crcByte 0xFFFF

/-- Low byte of a `uint16` (`value & 0xFF`). -/
def u16lo (v : ℕ) : ℕ := v % 256

/-- High byte of a `uint16` (`(value >> 8) & 0xFF`). -/
def u16hi (v : ℕ) : ℕ := v / 256 % 256

/-- Byte `k` of a 32-bit pattern, little-endian. -/
def u32Byte (v k : ℕ) : ℕ := v / 2 ^ (8 * k) % 256

/-- Byte `k` of an `int32` in two's complement, little-endian
(`(value >> 8k) & 0xFF` on the source's `int32_t`). -/
def intByte (v : ℤ) (k : ℕ) : ℕ := (v % 2 ^ 32).toNat / 2 ^ (8 * k) % 256

/-- Everything `encodePacket` consumes.  The amplitude/phase matrices and the
coherence/entropy scalars appear as IEEE-754 f32 bit patterns, which is all
the byte-copying serializer observes of them. -/
structure PacketInputs where
  raw : Fin 8 → ℤ
  ampBits : Fin 8 → Fin 5 → ℕ
  phaseBits : Fin 8 → Fin 5 → ℕ
  digits : Fin 20 → ℕ
  cohBits : ℕ
  gateFlags : ℕ
  loopFlags : ℕ
  entBits : ℕ
  stage : ℕ
  zipper : ℕ
  timestamp : ℕ

/-- Payload byte at offset `i` (0 ≤ i < 371), mirroring the write order of
`encodePacket`: 24 raw-sample bytes, 160 amplitude bytes, 160 phase bytes,
10 BCD digit bytes, coherence, gate/loop flags, entropy, 4 reserved zero
bytes, stage, zipper frequency. -/
def payloadByte (inp : PacketInputs) (i : ℕ) : ℕ :=
  if h : i < 24 then
    intByte (inp.raw ⟨i / 3, by omega⟩) (i % 3)
  else if h2 : i < 184 then
    u32Byte (inp.ampBits ⟨(i - 24) / 4 / 5, by omega⟩ ⟨(i - 24) / 4 % 5, by omega⟩)
      ((i - 24) % 4)
  else if h3 : i < 344 then
    u32Byte (inp.phaseBits ⟨(i - 184) / 4 / 5, by omega⟩ ⟨(i - 184) / 4 % 5, by omega⟩)
      ((i - 184) % 4)
  else if h4 : i < 354 then
    ((inp.digits ⟨2 * (i - 344), by omega⟩ % 10) <<< 4) |||
      (inp.digits ⟨2 * (i - 344) + 1, by omega⟩ % 10)
  else if i < 358 then u32Byte inp.cohBits (i - 354)
  else if i = 358 then inp.gateFlags % 256
  else if i = 359 then inp.loopFlags % 256
  else if i < 364 then u32Byte inp.entBits (i - 360)
  else if i < 368 then 0
  else if i = 368 then inp.stage % 256
  else if i = 369 then u16lo inp.zipper
  else if i = 370 then u16hi inp.zipper
  else 0

/-- The 371 payload bytes as a list. -/
def payloadList (inp : PacketInputs) : List ℕ :=
  List.ofFn fun i : Fin 371 => payloadByte inp i.val

/-- Header byte at offset `i` (0 ≤ i < 12): magic `0x5347` LE, version, type,
timestamp `ts` LE, payload length `371` LE, then the payload CRC `crc` LE. -/
def headerByte (ts crc i : ℕ) : ℕ :=
  if i = 0 then u16lo 0x5347
  else if i = 1 then u16hi 0x5347
  else if i = 2 then 0x01
  else if i = 3 then 0x01
  else if i < 8 then u32Byte ts (i - 4)
  else if i = 8 then u16lo 371
  else if i = 9 then u16hi 371
  else if i = 10 then u16lo crc
  else if i = 11 then u16hi crc
  else 0

/-- `encodePacket`: the full 383-byte frame, header followed by payload; the
header's CRC field is the CRC-16/CCITT of the 371 payload bytes. -/
def encodePacket (inp : PacketInputs) : List ℕ :=
  List.ofFn fun i : Fin 383 =>
    if i.val < 12 then headerByte inp.timestamp (crc16_ccitt (payloadList inp)) i.val
    else payloadByte inp (i.val - 12)

/-- Byte of the encoded frame at offset `i` (0 outside the frame). -/
def packetByteAt (inp : PacketInputs) (i : ℕ) : ℕ :=
  (encodePacket inp).getD i 0

/-! ### Decoding (§4.3 layout) -/

/-- Reassemble a 24-bit little-endian sample and sign-extend from bit 23. -/
def decode24 (b0 b1 b2 : ℕ) : ℤ :=
  let u := b0 + 256 * b1 + 65536 * b2
  if 2 ^ 23 ≤ u then (u : ℤ) - 2 ^ 24 else (u : ℤ)

/-- Reassemble a little-endian 32-bit pattern. -/
def decodeU32 (b0 b1 b2 b3 : ℕ) : ℕ :=
  b0 + 256 * b1 + 65536 * b2 + 2 ^ 24 * b3

/-- Raw sample of channel `ch` recovered from the payload. -/
def decodeRawSample (inp : PacketInputs) (ch : Fin 8) : ℤ :=
  decode24 (payloadByte inp (3 * ch.val)) (payloadByte inp (3 * ch.val + 1))
    (payloadByte inp (3 * ch.val + 2))

/-- Amplitude bit pattern of channel `ch`, band `b` recovered from the payload. -/
def decodeAmpBits (inp : PacketInputs) (ch : Fin 8) (b : Fin 5) : ℕ :=
  decodeU32 (payloadByte inp (24 + 4 * (5 * ch.val + b.val)))
    (payloadByte inp (24 + 4 * (5 * ch.val + b.val) + 1))
    (payloadByte inp (24 + 4 * (5 * ch.val + b.val) + 2))
    (payloadByte inp (24 + 4 * (5 * ch.val + b.val) + 3))

/-- Phase bit pattern of channel `ch`, band `b` recovered from the payload. -/
def decodePhaseBits (inp : PacketInputs) (ch : Fin 8) (b : Fin 5) : ℕ :=
  decodeU32 (payloadByte inp (184 + 4 * (5 * ch.val + b.val)))
    (payloadByte inp (184 + 4 * (5 * ch.val + b.val) + 1))
    (payloadByte inp (184 + 4 * (5 * ch.val + b.val) + 2))
    (payloadByte inp (184 + 4 * (5 * ch.val + b.val) + 3))

/-- Digit `i` recovered from the BCD bytes: high nibble for even positions,
low nibble for odd ones. -/
def decodeDigit (inp : PacketInputs) (i : Fin 20) : ℕ :=
  if i.val % 2 = 0 then (payloadByte inp (344 + i.val / 2) >>> 4) &&& 15
  else payloadByte inp (344 + i.val / 2) &&& 15

/-! ## General lemmas -/

lemma le_clampValue {α : Type*} [LinearOrder α] (value minV maxV : α) :
    minV ≤ clampValue value minV maxV :=
  le_max_left _ _

lemma clampValue_le {α : Type*} [LinearOrder α] (value minV maxV : α) (h : minV ≤ maxV) :
    clampValue value minV maxV ≤ maxV :=
  max_le h (min_le_left _ _)

lemma clampValue_mem_Icc {α : Type*} [LinearOrder α] (value minV maxV : α) (h : minV ≤ maxV) :
    clampValue value minV maxV ∈ Set.Icc minV maxV :=
  ⟨le_clampValue _ _ _, clampValue_le _ _ _ h⟩

lemma clampValue_of_mem {α : Type*} [LinearOrder α] {value minV maxV : α}
    (h1 : minV ≤ value) (h2 : value ≤ maxV) : clampValue value minV maxV = value := by
  simp [clampValue, min_eq_right h2, max_eq_right h1]

/-- `atan2 0 0 = 0` (like `atan2f`, whose value at the origin is zero). -/
lemma atan2_zero_zero : atan2 0 0 = 0 := by
  have h : (⟨0, 0⟩ : ℂ) = 0 := Complex.ext rfl rfl
  rw [atan2, h, Complex.arg_zero]

/-- Bit `k` of a five-bit flag mask is set exactly when its predicate holds. -/
lemma testBit_bitmaskOfProp (P : Fin 5 → Prop) [DecidablePred P] (k : Fin 5) :
    (bitmaskOfProp P).testBit k.val = true ↔ P k := by
  unfold bitmaskOfProp
  rw [Fin.sum_univ_five]
  by_cases h0 : P 0 <;> by_cases h1 : P 1 <;> by_cases h2 : P 2 <;>
    by_cases h3 : P 3 <;> by_cases h4 : P 4 <;>
    fin_cases k <;>
    simp_all <;> decide

lemma bitmaskOfProp_eq_zero (P : Fin 5 → Prop) [DecidablePred P] (h : ∀ b, ¬ P b) :
    bitmaskOfProp P = 0 :=
  Finset.sum_eq_zero fun b _ => if_neg (h b)

lemma getD_ofFn {n : ℕ} (f : Fin n → ℕ) (i : ℕ) (h : i < n) (d : ℕ) :
    (List.ofFn f).getD i d = f ⟨i, h⟩ := by
  rw [List.getD_eq_getElem?_getD, List.getElem?_ofFn]
  simp [List.ofFnNthVal, h]

lemma crcRound_lt (c : ℕ) : crcRound c < 65536 := by
  unfold crcRound
  split <;> exact Nat.mod_lt _ (by norm_num)

lemma crcByte_lt (c b : ℕ) : crcByte c b < 65536 := by
  unfold crcByte
  rw [show (8 : ℕ) = 7 + 1 from rfl, Function.iterate_succ_apply']
  exact crcRound_lt _

lemma crc16_ccitt_lt (data : List ℕ) : crc16_ccitt data < 65536 := by
  have h : ∀ (l : List ℕ) (c : ℕ), c < 65536 → l.foldl crcByte c < 65536 := by
    intro l
    induction l with
    | nil => intro c hc; simpa using hc
    | cons a t ih => intro c _; exact ih _ (crcByte_lt _ _)
  exact h _ _ (by norm_num)

/-! ## C9: lock-in update semantics -/

/-- C9: `process` demodulates the sample against the reference tables at the
current cursor, applies the one-pole IIR to I and Q, derives
`amplitude = 2·√(I²+Q²)` and `phase = atan2(Q, I)`, and advances the cursor
modulo `Fs = 250`; the filter coefficient is left unchanged by `process` and
is set at reset to `clamp(exp(-2π·max(0.1, bandwidth)/Fs), 0, 0.9995)`, hence
always lies in `[0, 0.9995]`. -/
theorem lockin_process_spec (st : MultiBandLockIn) (sample : ℝ) (b : Fin 5) :
    ((lockInProcess st sample).bands b).i =
      (st.bands b).filterAlpha * (st.bands b).i +
        (1 - (st.bands b).filterAlpha) *
          (sample * (st.bands b).refCos ⟨st.index % 250, Nat.mod_lt _ (by norm_num)⟩) ∧
    ((lockInProcess st sample).bands b).q =
      (st.bands b).filterAlpha * (st.bands b).q +
        (1 - (st.bands b).filterAlpha) *
          (sample * (st.bands b).refSin ⟨st.index % 250, Nat.mod_lt _ (by norm_num)⟩) ∧
    ((lockInProcess st sample).bands b).amplitude =
      2 * Real.sqrt (((lockInProcess st sample).bands b).i * ((lockInProcess st sample).bands b).i +
        ((lockInProcess st sample).bands b).q * ((lockInProcess st sample).bands b).q) ∧
    ((lockInProcess st sample).bands b).phase =
      atan2 ((lockInProcess st sample).bands b).q ((lockInProcess st sample).bands b).i ∧
    (lockInProcess st sample).index = (st.index + 1) % 250 ∧
    ((lockInProcess st sample).bands b).filterAlpha = (st.bands b).filterAlpha ∧
    (lockInReset.bands b).filterAlpha =
      clampValue (Real.exp (-(2 * Real.pi) * max 0.1 (bandBandwidth b) / 250)) 0 0.9995 ∧
    (lockInReset.bands b).filterAlpha ∈ Set.Icc (0 : ℝ) 0.9995 :=
  ⟨rfl, rfl, rfl, rfl, rfl, rfl, rfl, clampValue_mem_Icc _ _ _ (by norm_num)⟩

/-! ## C4: packet framing -/

lemma packetByteAt_eq (inp : PacketInputs) (i : ℕ) (h : i < 383) :
    packetByteAt inp i =
      if i < 12 then headerByte inp.timestamp (crc16_ccitt (payloadList inp)) i
      else payloadByte inp (i - 12) := by
  unfold packetByteAt encodePacket
  rw [getD_ofFn _ _ h]

lemma headerByte_magic_version (ts c : ℕ) :
    headerByte ts c 0 = 0x47 ∧ headerByte ts c 1 = 0x53 ∧
    headerByte ts c 2 = 0x01 ∧ headerByte ts c 3 = 0x01 ∧
    headerByte ts c 8 = 0x73 ∧ headerByte ts c 9 = 0x01 := by
  refine ⟨?_, ?_, ?_, ?_, ?_, ?_⟩ <;> norm_num [headerByte, u16lo, u16hi]

lemma headerByte_timestamp (ts c : ℕ) :
    headerByte ts c 4 + 256 * headerByte ts c 5 + 65536 * headerByte ts c 6 +
      16777216 * headerByte ts c 7 = ts % 2 ^ 32 := by
  norm_num [headerByte, u32Byte]
  omega

lemma headerByte_crc (ts c : ℕ) (h : c < 65536) :
    headerByte ts c 10 + 256 * headerByte ts c 11 = c := by
  norm_num [headerByte, u16lo, u16hi]
  omega

/-- C4: `encodePacket` emits exactly 383 bytes: the 12-byte header carries the
magic `0x5347` little-endian, version `0x01`, type `0x01`, the caller's
timestamp as a little-endian `u32`, the payload length `371` little-endian,
and the CRC-16/CCITT of exactly the 371 payload bytes; payload bytes 364–367
(reserved) are zero. -/
theorem packet_format (inp : PacketInputs) :
    (encodePacket inp).length = 383 ∧
    packetByteAt inp 0 = 0x47 ∧ packetByteAt inp 1 = 0x53 ∧
    packetByteAt inp 2 = 0x01 ∧ packetByteAt inp 3 = 0x01 ∧
    packetByteAt inp 4 + 256 * packetByteAt inp 5 + 65536 * packetByteAt inp 6 +
      16777216 * packetByteAt inp 7 = inp.timestamp % 2 ^ 32 ∧
    packetByteAt inp 8 = 0x73 ∧ packetByteAt inp 9 = 0x01 ∧
    packetByteAt inp 10 + 256 * packetByteAt inp 11 = crc16_ccitt (payloadList inp) ∧
    (payloadList inp).length = 371 ∧
    payloadByte inp 364 = 0 ∧ payloadByte inp 365 = 0 ∧
    payloadByte inp 366 = 0 ∧ payloadByte inp 367 = 0 := by
  refine ⟨by unfold encodePacket; rw [List.length_ofFn], ?_, ?_, ?_, ?_, ?_, ?_, ?_, ?_,
    by unfold payloadList; rw [List.length_ofFn], ?_, ?_, ?_, ?_⟩
  · rw [packetByteAt_eq inp 0 (by norm_num), if_pos (by norm_num : (0:ℕ) < 12)]
    exact (headerByte_magic_version _ _).1
  · rw [packetByteAt_eq inp 1 (by norm_num), if_pos (by norm_num : (1:ℕ) < 12)]
    exact (headerByte_magic_version _ _).2.1
  · rw [packetByteAt_eq inp 2 (by norm_num), if_pos (by norm_num : (2:ℕ) < 12)]
    exact (headerByte_magic_version _ _).2.2.1
  · rw [packetByteAt_eq inp 3 (by norm_num), if_pos (by norm_num : (3:ℕ) < 12)]
    exact (headerByte_magic_version _ _).2.2.2.1
  · rw [packetByteAt_eq inp 4 (by norm_num), packetByteAt_eq inp 5 (by norm_num),
      packetByteAt_eq inp 6 (by norm_num), packetByteAt_eq inp 7 (by norm_num),
      if_pos (by norm_num : (4:ℕ) < 12), if_pos (by norm_num : (5:ℕ) < 12),
      if_pos (by norm_num : (6:ℕ) < 12), if_pos (by norm_num : (7:ℕ) < 12)]
    exact headerByte_timestamp _ _
  · rw [packetByteAt_eq inp 8 (by norm_num), if_pos (by norm_num : (8:ℕ) < 12)]
    exact (headerByte_magic_version _ _).2.2.2.2.1
  · rw [packetByteAt_eq inp 9 (by norm_num), if_pos (by norm_num : (9:ℕ) < 12)]
    exact (headerByte_magic_version _ _).2.2.2.2.2
  · rw [packetByteAt_eq inp 10 (by norm_num), packetByteAt_eq inp 11 (by norm_num),
      if_pos (by norm_num : (10:ℕ) < 12), if_pos (by norm_num : (11:ℕ) < 12)]
    exact headerByte_crc _ _ (crc16_ccitt_lt _)
  · norm_num [payloadByte]
  · norm_num [payloadByte]
  · norm_num [payloadByte]
  · norm_num [payloadByte]

/-! ## C5: payload round-trip -/

lemma payloadByte_raw (inp : PacketInputs) (ch : Fin 8) (k i : ℕ) (hk : k < 3)
    (hi : i = 3 * ch.val + k) : payloadByte inp i = intByte (inp.raw ch) k := by
  subst hi
  have hch := ch.isLt
  unfold payloadByte
  rw [dif_pos (by omega)]
  congr 1
  · exact congrArg inp.raw (Fin.ext (show (3 * ch.val + k) / 3 = ch.val by omega))
  · omega

lemma payloadByte_amp (inp : PacketInputs) (ch : Fin 8) (b : Fin 5) (k i : ℕ) (hk : k < 4)
    (hi : i = 24 + 4 * (5 * ch.val + b.val) + k) :
    payloadByte inp i = u32Byte (inp.ampBits ch b) k := by
  subst hi
  have hch := ch.isLt
  have hb := b.isLt
  unfold payloadByte
  rw [dif_neg (by omega), dif_pos (by omega)]
  congr 1
  · exact congrArg₂ inp.ampBits
      (Fin.ext (show (24 + 4 * (5 * ch.val + b.val) + k - 24) / 4 / 5 = ch.val by omega))
      (Fin.ext (show (24 + 4 * (5 * ch.val + b.val) + k - 24) / 4 % 5 = b.val by omega))
  · omega

lemma payloadByte_phase (inp : PacketInputs) (ch : Fin 8) (b : Fin 5) (k i : ℕ) (hk : k < 4)
    (hi : i = 184 + 4 * (5 * ch.val + b.val) + k) :
    payloadByte inp i = u32Byte (inp.phaseBits ch b) k := by
  subst hi
  have hch := ch.isLt
  have hb := b.isLt
  unfold payloadByte
  rw [dif_neg (by omega), dif_neg (by omega), dif_pos (by omega)]
  congr 1
  · exact congrArg₂ inp.phaseBits
      (Fin.ext (show (184 + 4 * (5 * ch.val + b.val) + k - 184) / 4 / 5 = ch.val by omega))
      (Fin.ext (show (184 + 4 * (5 * ch.val + b.val) + k - 184) / 4 % 5 = b.val by omega))
  · omega

lemma payloadByte_bcd (inp : PacketInputs) (p i : ℕ) (hp : p < 10) (hi : i = 344 + p)
    (x y : Fin 20) (hx : x.val = 2 * p) (hy : y.val = 2 * p + 1) :
    payloadByte inp i = ((inp.digits x % 10) <<< 4) ||| (inp.digits y % 10) := by
  subst hi
  unfold payloadByte
  rw [dif_neg (by omega), dif_neg (by omega), dif_neg (by omega), dif_pos (by omega)]
  exact congrArg₂ (fun a b : ℕ => ((a % 10) <<< 4) ||| (b % 10))
    (congrArg inp.digits (Fin.ext (show 2 * (344 + p - 344) = x.val by omega)))
    (congrArg inp.digits (Fin.ext (show 2 * (344 + p - 344) + 1 = y.val by omega)))

lemma decode24_intByte (v : ℤ) (h1 : -(2 ^ 23) ≤ v) (h2 : v < 2 ^ 23) :
    decode24 (intByte v 0) (intByte v 1) (intByte v 2) = v := by
  unfold decode24 intByte
  norm_num
  split_ifs <;> omega

lemma decodeU32_u32Byte (x : ℕ) (h : x < 2 ^ 32) :
    decodeU32 (u32Byte x 0) (u32Byte x 1) (u32Byte x 2) (u32Byte x 3) = x := by
  unfold decodeU32 u32Byte
  norm_num
  omega

lemma bcd_nibbles (x y : ℕ) (hx : x ≤ 9) (hy : y ≤ 9) :
    (((x <<< 4) ||| y) >>> 4) &&& 15 = x ∧ ((x <<< 4) ||| y) &&& 15 = y := by
  interval_cases x <;> interval_cases y <;> exact ⟨by decide, by decide⟩

lemma bcd_high (x y : ℕ) : ((((x % 10) <<< 4) ||| (y % 10)) >>> 4) &&& 15 = x % 10 :=
  (bcd_nibbles (x % 10) (y % 10) (by omega) (by omega)).1

lemma bcd_low (x y : ℕ) : (((x % 10) <<< 4) ||| (y % 10)) &&& 15 = y % 10 :=
  (bcd_nibbles (x % 10) (y % 10) (by omega) (by omega)).2

/-- C5: decoding an encoded payload per the §4.3 layout recovers the raw
samples (for values in the signed 24-bit range), the amplitude and phase
f32 bit patterns, and the 20 decimal digits; a raw sample of `-8388608`
serializes as bytes `0x00 0x00 0x80`. -/
theorem packet_roundtrip (inp : PacketInputs)
    (hraw : ∀ ch, -(2 ^ 23) ≤ inp.raw ch ∧ inp.raw ch < 2 ^ 23)
    (hamp : ∀ ch b, inp.ampBits ch b < 2 ^ 32)
    (hph : ∀ ch b, inp.phaseBits ch b < 2 ^ 32)
    (hdig : ∀ i, inp.digits i ≤ 9) :
    (∀ ch, decodeRawSample inp ch = inp.raw ch) ∧
    (∀ ch b, decodeAmpBits inp ch b = inp.ampBits ch b) ∧
    (∀ ch b, decodePhaseBits inp ch b = inp.phaseBits ch b) ∧
    (∀ i, decodeDigit inp i = inp.digits i) ∧
    (∀ ch, inp.raw ch = -8388608 →
      payloadByte inp (3 * ch.val) = 0x00 ∧ payloadByte inp (3 * ch.val + 1) = 0x00 ∧
      payloadByte inp (3 * ch.val + 2) = 0x80) := by
  refine ⟨?_, ?_, ?_, ?_, ?_⟩
  · intro ch
    unfold decodeRawSample
    rw [payloadByte_raw inp ch 0 _ (by omega) (by omega),
      payloadByte_raw inp ch 1 _ (by omega) (by omega),
      payloadByte_raw inp ch 2 _ (by omega) (by omega)]
    exact decode24_intByte _ (hraw ch).1 (hraw ch).2
  · intro ch b
    unfold decodeAmpBits
    rw [payloadByte_amp inp ch b 0 _ (by omega) (by omega),
      payloadByte_amp inp ch b 1 _ (by omega) (by omega),
      payloadByte_amp inp ch b 2 _ (by omega) (by omega),
      payloadByte_amp inp ch b 3 _ (by omega) (by omega)]
    exact decodeU32_u32Byte _ (hamp ch b)
  · intro ch b
    unfold decodePhaseBits
    rw [payloadByte_phase inp ch b 0 _ (by omega) (by omega),
      payloadByte_phase inp ch b 1 _ (by omega) (by omega),
      payloadByte_phase inp ch b 2 _ (by omega) (by omega),
      payloadByte_phase inp ch b 3 _ (by omega) (by omega)]
    exact decodeU32_u32Byte _ (hph ch b)
  · intro i
    have hlt := i.isLt
    unfold decodeDigit
    by_cases he : i.val % 2 = 0
    · rw [if_pos he,
        payloadByte_bcd inp (i.val / 2) _ (by omega) (by omega) i ⟨i.val + 1, by omega⟩
          (by omega) (show (⟨i.val + 1, by omega⟩ : Fin 20).val = 2 * (i.val / 2) + 1
            by show i.val + 1 = 2 * (i.val / 2) + 1; omega)]
      rw [bcd_high]
      exact Nat.mod_eq_of_lt (by have := hdig i; omega)
    · rw [if_neg he,
        payloadByte_bcd inp (i.val / 2) _ (by omega) (by omega) ⟨i.val - 1, by omega⟩ i
          (show (⟨i.val - 1, by omega⟩ : Fin 20).val = 2 * (i.val / 2)
            by show i.val - 1 = 2 * (i.val / 2); omega) (by omega)]
      rw [bcd_low]
      exact Nat.mod_eq_of_lt (by have := hdig i; omega)
  · intro ch h
    rw [payloadByte_raw inp ch 0 _ (by omega) (by omega),
      payloadByte_raw inp ch 1 _ (by omega) (by omega),
      payloadByte_raw inp ch 2 _ (by omega) (by omega), h]
    refine ⟨?_, ?_, ?_⟩ <;> decide

/-- A concrete frame: full-scale negative samples, zero bit patterns and digits. -/
def fullScaleInputs : PacketInputs where
  raw := fun _ => -8388608
  ampBits := fun _ _ => 0
  phaseBits := fun _ _ => 0
  digits := fun _ => 0
  cohBits := 0
  gateFlags := 0
  loopFlags := 0
  entBits := 0
  stage := 0
  zipper := 0
  timestamp := 0

/-- Witness for `packet_roundtrip` at the concrete full-scale frame. -/
theorem packet_roundtrip_witness :
    decodeRawSample fullScaleInputs 0 = fullScaleInputs.raw 0 ∧
    decodeAmpBits fullScaleInputs 0 0 = fullScaleInputs.ampBits 0 0 ∧
    decodePhaseBits fullScaleInputs 0 0 = fullScaleInputs.phaseBits 0 0 ∧
    decodeDigit fullScaleInputs 0 = fullScaleInputs.digits 0 ∧
    (payloadByte fullScaleInputs (3 * (0 : Fin 8).val) = 0x00 ∧
     payloadByte fullScaleInputs (3 * (0 : Fin 8).val + 1) = 0x00 ∧
     payloadByte fullScaleInputs (3 * (0 : Fin 8).val + 2) = 0x80) := by
  have h := packet_roundtrip fullScaleInputs (fun ch => by norm_num [fullScaleInputs])
    (fun ch b => by norm_num [fullScaleInputs]) (fun ch b => by norm_num [fullScaleInputs])
    (fun i => by norm_num [fullScaleInputs])
  exact ⟨h.1 0, h.2.1 0 0, h.2.2.1 0 0, h.2.2.2.1 0, h.2.2.2.2 0 rfl⟩

/-! ## C3: checksum digits -/

lemma sigDigits_main (amp phases : BandMatrix) (g : ℕ) (i : Fin 18) :
    sigDigits amp phases g (Fin.castLE (by omega) i) = digitsMain amp phases g i := by
  unfold sigDigits
  rw [dif_pos (show (Fin.castLE (by omega : (18:ℕ) ≤ 20) i).val < 18 from i.isLt)]
  exact congrArg (digitsMain amp phases g) (Fin.ext rfl)

/-- C3: positions 18 and 19 of every composed fingerprint are the tens and
ones decimal digits of the sum of digits 0–17 reduced modulo 97. -/
theorem checksum_digits (st : ComposerState) (amp phases : BandMatrix) (g : ℕ) :
    (compose st amp phases g).1.digits 18 =
      (∑ i : Fin 18, (compose st amp phases g).1.digits (Fin.castLE (by omega) i)) % 97
        / 10 % 10 ∧
    (compose st amp phases g).1.digits 19 =
      (∑ i : Fin 18, (compose st amp phases g).1.digits (Fin.castLE (by omega) i)) % 97
        % 10 := by
  have hsum : (∑ i : Fin 18, (compose st amp phases g).1.digits (Fin.castLE (by omega) i))
      = ∑ i : Fin 18, digitsMain amp phases g i :=
    Finset.sum_congr rfl fun i _ => sigDigits_main amp phases g i
  constructor
  · show sigDigits amp phases g 18 = _
    rw [hsum]
    unfold sigDigits
    rw [dif_neg (by decide), if_pos (by decide)]
    rfl
  · show sigDigits amp phases g 19 = _
    rw [hsum]
    unfold sigDigits
    rw [dif_neg (by decide), if_neg (by decide)]
    rfl

/-! ## C2: result invariants -/

lemma clamp099_div10_toNat_le (r : ℤ) : (clampValue r 0 99 / 10).toNat ≤ 9 := by
  unfold clampValue
  omega

lemma int_mod10_toNat_le (r : ℤ) : (r % 10).toNat ≤ 9 := by omega

lemma clamp09_toNat_le (r : ℤ) : (clampValue r 0 9).toNat ≤ 9 := by
  unfold clampValue
  omega

lemma digitsMain_le_nine (amp phases : BandMatrix) (g : ℕ) (i : Fin 18) :
    digitsMain amp phases g i ≤ 9 := by
  fin_cases i
  · exact clamp099_div10_toNat_le _
  · exact int_mod10_toNat_le _
  · exact clamp099_div10_toNat_le _
  · exact int_mod10_toNat_le _
  · exact clamp099_div10_toNat_le _
  · exact int_mod10_toNat_le _
  · exact clamp099_div10_toNat_le _
  · exact int_mod10_toNat_le _
  · exact int_mod10_toNat_le _
  · exact int_mod10_toNat_le _
  · exact int_mod10_toNat_le _
  · exact int_mod10_toNat_le _
  · exact clamp09_toNat_le _
  · exact clamp09_toNat_le _
  · exact clamp09_toNat_le _
  · exact clamp09_toNat_le _
  · exact clamp09_toNat_le _
  · exact Nat.le_of_lt_succ (Nat.mod_lt _ (by norm_num))

lemma sigDigits_le_nine (amp phases : BandMatrix) (g : ℕ) (i : Fin 20) :
    sigDigits amp phases g i ≤ 9 := by
  unfold sigDigits
  split_ifs
  · exact digitsMain_le_nine amp phases g _
  · omega
  · omega

lemma digitCount_le (d : Fin 20 → ℕ) (k : ℕ) : digitCount d k ≤ 20 :=
  le_trans (Finset.card_filter_le _ _) (by simp)

lemma digitCount_sum (d : Fin 20 → ℕ) (hd : ∀ i, d i < 10) :
    ∑ k ∈ Finset.range 10, digitCount d k = 20 := by
  unfold digitCount
  rw [← Finset.card_eq_sum_card_fiberwise fun x _ => Finset.mem_range.mpr (hd x)]
  simp

lemma entropyOf_nonneg (d : Fin 20 → ℕ) : 0 ≤ entropyOf d := by
  unfold entropyOf
  apply Finset.sum_nonneg
  intro k _
  split_ifs with h
  · exact le_refl _
  · have hc1 : (1 : ℝ) ≤ (digitCount d k : ℝ) := by
      exact_mod_cast Nat.one_le_iff_ne_zero.mpr h
    have hc20 : ((digitCount d k : ℝ)) ≤ 20 := by exact_mod_cast digitCount_le d k
    have hp0 : (0 : ℝ) ≤ (digitCount d k : ℝ) / 20 := by positivity
    have hp1 : (digitCount d k : ℝ) / 20 ≤ 1 := by
      rw [div_le_one (by norm_num : (0:ℝ) < 20)]
      exact hc20
    have hlog : Real.log ((digitCount d k : ℝ) / 20) ≤ 0 := Real.log_nonpos hp0 hp1
    have h2 : (0 : ℝ) < Real.log 2 := Real.log_pos (by norm_num)
    exact neg_nonneg.mpr
      (mul_nonpos_of_nonneg_of_nonpos hp0 (div_nonpos_of_nonpos_of_nonneg hlog h2.le))

lemma entropyOf_le_logb (d : Fin 20 → ℕ) (hd : ∀ i, d i < 10) :
    entropyOf d ≤ Real.logb 2 10 := by
  classical
  set t := Finset.filter (fun k => digitCount d k ≠ 0) (Finset.range 10) with ht
  have hstep : entropyOf d =
      ∑ k ∈ t, -(((digitCount d k : ℝ) / 20) *
        (Real.log ((digitCount d k : ℝ) / 20) / Real.log 2)) := by
    rw [ht, Finset.sum_filter]
    unfold entropyOf
    apply Finset.sum_congr rfl
    intro k _
    by_cases h : digitCount d k = 0
    · rw [if_pos h, if_neg (not_not_intro h)]
    · rw [if_neg h, if_pos h]
  have hsumt : ∑ k ∈ t, digitCount d k = 20 := by
    rw [ht, Finset.sum_filter_ne_zero]
    exact digitCount_sum d hd
  have htpos : ∀ k ∈ t, (0 : ℝ) < (digitCount d k : ℝ) / 20 := by
    intro k hk
    have hne : digitCount d k ≠ 0 := (Finset.mem_filter.mp hk).2
    have : (0 : ℝ) < (digitCount d k : ℝ) := by exact_mod_cast Nat.pos_of_ne_zero hne
    exact div_pos this (by norm_num)
  have hcard : (t.card : ℝ) ≤ 10 := by
    exact_mod_cast le_trans (Finset.card_filter_le _ _) (le_of_eq (Finset.card_range 10))
  have htne : t.Nonempty := by
    by_contra h
    rw [Finset.not_nonempty_iff_eq_empty] at h
    rw [h] at hsumt
    simp at hsumt
  have hcard1 : (1 : ℝ) ≤ (t.card : ℝ) := by
    exact_mod_cast Finset.card_pos.mpr htne
  have hconc : ConcaveOn ℝ (Set.Ioi 0) Real.log := strictConcaveOn_log_Ioi.concaveOn
  have hw : ∀ k ∈ t, (0 : ℝ) ≤ (digitCount d k : ℝ) / 20 := fun k hk => (htpos k hk).le
  have hw1 : ∑ k ∈ t, (digitCount d k : ℝ) / 20 = 1 := by
    rw [← Finset.sum_div]
    have hc : ((∑ k ∈ t, digitCount d k : ℕ) : ℝ) = (20 : ℝ) := by
      rw [hsumt]; norm_num
    rw [Nat.cast_sum] at hc
    rw [hc]
    norm_num
  have hmem : ∀ k ∈ t, ((digitCount d k : ℝ) / 20)⁻¹ ∈ Set.Ioi (0 : ℝ) := fun k hk =>
    Set.mem_Ioi.mpr (inv_pos.mpr (htpos k hk))
  have hjen := hconc.le_map_sum hw hw1 hmem
  simp only [smul_eq_mul] at hjen
  have hsum1 : ∑ k ∈ t, ((digitCount d k : ℝ) / 20) * ((digitCount d k : ℝ) / 20)⁻¹
      = (t.card : ℝ) := by
    rw [Finset.sum_congr rfl fun k hk => mul_inv_cancel₀ (ne_of_gt (htpos k hk))]
    simp
  rw [hsum1] at hjen
  have h2 : (0 : ℝ) < Real.log 2 := Real.log_pos (by norm_num)
  calc entropyOf d
      = (∑ k ∈ t, ((digitCount d k : ℝ) / 20) *
          Real.log (((digitCount d k : ℝ) / 20))⁻¹) / Real.log 2 := by
        rw [hstep, Finset.sum_div]
        apply Finset.sum_congr rfl
        intro k _
        rw [Real.log_inv]
        ring
    _ ≤ Real.log (t.card : ℝ) / Real.log 2 := by
        apply div_le_div_of_nonneg_right hjen h2.le
    _ ≤ Real.log 10 / Real.log 2 := by
        apply div_le_div_of_nonneg_right _ h2.le
        exact Real.log_le_log (by linarith) hcard
    _ = Real.logb 2 10 := Real.log_div_log

/-- C2: every composed fingerprint has all 20 digits in `[0, 9]`, coherence
in `[0, 1]`, and entropy in `[0, log₂ 10]`. -/
theorem compose_result_invariants (st : ComposerState) (amp phases : BandMatrix) (g : ℕ) :
    (∀ i, (compose st amp phases g).1.digits i ≤ 9) ∧
    (compose st amp phases g).1.coherence ∈ Set.Icc (0 : ℝ) 1 ∧
    (compose st amp phases g).1.entropy ∈ Set.Icc (0 : ℝ) (Real.logb 2 10) := by
  refine ⟨sigDigits_le_nine amp phases g, clampValue_mem_Icc _ _ _ (by norm_num),
    entropyOf_nonneg _, entropyOf_le_logb _ fun i =>
      lt_of_le_of_lt (sigDigits_le_nine amp phases g i) (by norm_num)⟩

/-! ## C6, C7: gate detection -/

/-- The constant 8×5 matrix. -/
noncomputable def constMat (x : ℝ) : BandMatrix := fun _ _ => x

/-- A matrix whose band-0 entries are 11 and all other entries 10. -/
noncomputable def stepMat : BandMatrix := fun _ b => if b.val = 0 then 11 else 10

lemma avgPower_constMat (x : ℝ) (b : Fin 5) : avgPower (constMat x) b = x := by
  unfold avgPower constMat
  rw [Finset.sum_const, Finset.card_univ, Fintype.card_fin, nsmul_eq_mul]
  norm_num

lemma avgPower_stepMat_zero : avgPower stepMat 0 = 11 := by
  unfold avgPower stepMat
  simp [Finset.sum_const, Finset.card_univ, nsmul_eq_mul]

/-- C6: bit `b` of `gate_flags` is set exactly when the composer is already
initialized and `|mean_amp_b − previous_power_b| / max(previous_power_b, 10⁻³)`
reaches the 0.35 threshold; an uninitialized (first) call sets no gate bit;
and `previous_power_b` is updated to the new mean amplitude. -/
theorem gate_semantics (st : ComposerState) (amp phases : BandMatrix) (g : ℕ) (b : Fin 5) :
    ((compose st amp phases g).1.gate_flags.testBit b.val = true ↔
      st.initialized = true ∧ 0.35 ≤ gateDelta st amp b) ∧
    (st.initialized = false → (compose st amp phases g).1.gate_flags = 0) ∧
    (compose st amp phases g).2.previousPower b = avgPower amp b := by
  refine ⟨testBit_bitmaskOfProp
    (fun b' => st.initialized = true ∧ 0.35 ≤ gateDelta st amp b') b, ?_, rfl⟩
  intro h
  refine bitmaskOfProp_eq_zero
    (fun b' => st.initialized = true ∧ 0.35 ≤ gateDelta st amp b') fun b' hb' => ?_
  rw [h] at hb'
  exact absurd hb'.1 (by simp)

/-- Witness for `gate_semantics` at a fresh composer and all-zero matrices. -/
theorem gate_semantics_witness :
    (((compose composerInit (constMat 0) (constMat 0) 0).1.gate_flags.testBit
        (0 : Fin 5).val = true ↔
      composerInit.initialized = true ∧ 0.35 ≤ gateDelta composerInit (constMat 0) 0) ∧
     (compose composerInit (constMat 0) (constMat 0) 0).1.gate_flags = 0 ∧
     (compose composerInit (constMat 0) (constMat 0) 0).2.previousPower 0 =
        avgPower (constMat 0) 0) :=
  ⟨(gate_semantics composerInit (constMat 0) (constMat 0) 0 0).1,
   (gate_semantics composerInit (constMat 0) (constMat 0) 0 0).2.1 rfl,
   (gate_semantics composerInit (constMat 0) (constMat 0) 0 0).2.2⟩

/-- C7 counterexample: between two compose calls, band 0's mean amplitude
steps from 10 to 11 — a 10 % change, well above 5 % — yet the gate bit of
band 0 is NOT set on the second call (the code's gate threshold is 35 %,
not 5 %). -/
theorem gate_five_percent_counterexample :
    avgPower (constMat 10) 0 = 10 ∧ avgPower stepMat 0 = 11 ∧
    (compose (compose composerInit (constMat 10) (constMat 0) 0).2 stepMat
      (constMat 0) 0).1.gate_flags.testBit (0 : Fin 5).val = false := by
  refine ⟨avgPower_constMat 10 0, avgPower_stepMat_zero, ?_⟩
  have hprev : (compose composerInit (constMat 10) (constMat 0) 0).2.previousPower 0
      = (10 : ℝ) := by
    rw [show (compose composerInit (constMat 10) (constMat 0) 0).2.previousPower 0
        = avgPower (constMat 10) 0 from rfl, avgPower_constMat]
  have hiff := testBit_bitmaskOfProp
    (fun b' => (compose composerInit (constMat 10) (constMat 0) 0).2.initialized = true ∧
      0.35 ≤ gateDelta (compose composerInit (constMat 10) (constMat 0) 0).2 stepMat b')
    (0 : Fin 5)
  apply Bool.eq_false_iff.mpr
  intro htrue
  obtain ⟨-, hge⟩ := hiff.mp htrue
  unfold gateDelta at hge
  rw [hprev, avgPower_stepMat_zero, show (11 : ℝ) - 10 = 1 by norm_num, abs_one,
    max_eq_left (by norm_num : (1e-3 : ℝ) ≤ 10)] at hge
  norm_num at hge

/-- C7 (amended): once the composer is initialized, a relative mean-amplitude
step of at least 35 % (the code's threshold; 5 % does not suffice) between two
successive compose calls sets that band's gate bit on the second call. -/
theorem gate_fires_on_large_step (st : ComposerState) (amp1 ph1 : BandMatrix) (g1 : ℕ)
    (amp2 ph2 : BandMatrix) (g2 : ℕ) (b : Fin 5)
    (h : 0.35 ≤ |avgPower amp2 b - avgPower amp1 b| / max (avgPower amp1 b) 1e-3) :
    (compose (compose st amp1 ph1 g1).2 amp2 ph2 g2).1.gate_flags.testBit b.val = true :=
  (testBit_bitmaskOfProp
    (fun b' => (compose st amp1 ph1 g1).2.initialized = true ∧
      0.35 ≤ gateDelta (compose st amp1 ph1 g1).2 amp2 b') b).mpr ⟨rfl, h⟩

/-- Witness for `gate_fires_on_large_step`: a 10 → 20 step (100 %). -/
theorem gate_fires_witness :
    (compose (compose composerInit (constMat 10) (constMat 0) 0).2 (constMat 20)
      (constMat 0) 0).1.gate_flags.testBit (0 : Fin 5).val = true :=
  gate_fires_on_large_step composerInit (constMat 10) (constMat 0) 0 (constMat 20)
    (constMat 0) 0 0 (by
      rw [avgPower_constMat, avgPower_constMat,
        show (20 : ℝ) - 10 = 10 by norm_num, abs_of_nonneg (by norm_num : (0:ℝ) ≤ 10),
        max_eq_left (by norm_num : (1e-3 : ℝ) ≤ 10)]
      norm_num)

/-! ## C10: composer state well-formedness -/

lemma composeTrace_fill_le (A P : ℕ → BandMatrix) (g : ℕ → ℕ) (n : ℕ) (b : Fin 5) :
    (composeTrace A P g n).fillCount b ≤ 64 := by
  induction n with
  | zero => exact (show (0 : ℕ) ≤ 64 by norm_num)
  | succ m ih =>
    show fillAfter (composeTrace A P g m) b ≤ 64
    unfold fillAfter
    split_ifs with h
    · omega
    · exact ih

/-- C10: after any compose call in a run from the fresh composer, the per-band
write cursor is `< 64`, the fill count is saturated at `≤ 64`, `initialized`
holds, and `previous_power` equals the mean amplitude of the call's matrix —
so the ring-buffer reads of the loop detector are always in bounds. -/
theorem composer_state_wellformed (A P : ℕ → BandMatrix) (g : ℕ → ℕ) (n : ℕ) (b : Fin 5) :
    (composeTrace A P g (n + 1)).historyIndex b < 64 ∧
    (composeTrace A P g (n + 1)).fillCount b ≤ 64 ∧
    (composeTrace A P g (n + 1)).initialized = true ∧
    (composeTrace A P g (n + 1)).previousPower b = avgPower (A n) b := by
  refine ⟨?_, composeTrace_fill_le A P g (n + 1) b, rfl, rfl⟩
  show ((composeTrace A P g n).historyIndex b % 64 + 1) % 64 < 64
  exact Nat.mod_lt _ (by norm_num)

/-! ## C8: loop detection on constant runs -/

lemma composeTrace_const (A P : ℕ → BandMatrix) (g : ℕ → ℕ)
    (hconst : ∀ n b, avgPower (A n) b = avgPower (A 0) b) (n : ℕ) (b : Fin 5) :
    (composeTrace A P g n).historyIndex b = n % 64 ∧
    (composeTrace A P g n).fillCount b = min n 64 ∧
    (∀ j : Fin 64, j.val < min n 64 →
      (composeTrace A P g n).history b j = avgPower (A 0) b) ∧
    (n ≠ 0 → (composeTrace A P g n).initialized = true) := by
  induction n with
  | zero => exact ⟨rfl, rfl, fun j hj => absurd hj (by omega), fun h => absurd rfl h⟩
  | succ m ih =>
    obtain ⟨hidx, hfill, hhist, -⟩ := ih
    refine ⟨?_, ?_, ?_, fun _ => rfl⟩
    · show ((composeTrace A P g m).historyIndex b % 64 + 1) % 64 = (m + 1) % 64
      rw [hidx]
      omega
    · show fillAfter (composeTrace A P g m) b = min (m + 1) 64
      unfold fillAfter
      rw [hfill]
      split_ifs <;> omega
    · intro j hj
      show historyAfterWrite (composeTrace A P g m) (A m) b j = avgPower (A 0) b
      unfold historyAfterWrite
      rw [hidx]
      split_ifs with hc
      · exact hconst m b
      · refine hhist j ?_
        have hj64 := j.isLt
        omega

/-- C8: in any run from the fresh composer in which every band's mean
amplitude stays constant, each compose call after the 20th (call `n + 1`
with `n ≥ 20`) sets the loop bit of every band. -/
theorem loop_flags_constant_run (A P : ℕ → BandMatrix) (g : ℕ → ℕ)
    (hconst : ∀ n b, avgPower (A n) b = avgPower (A 0) b)
    (n : ℕ) (hn : 20 ≤ n) (b : Fin 5) :
    (compose (composeTrace A P g n) (A n) (P n) (g n)).1.loop_flags.testBit b.val
      = true := by
  obtain ⟨hidx, hfill, hhist, hinit⟩ := composeTrace_const A P g hconst n b
  apply (testBit_bitmaskOfProp
    (fun b' => (composeTrace A P g n).initialized = true ∧
      20 < fillAfter (composeTrace A P g n) b' ∧
      loopDeviation (composeTrace A P g n) (A n) b' ≤ 0.05) b).mpr
  refine ⟨hinit (by omega), ?_, ?_⟩
  · show 20 < fillAfter (composeTrace A P g n) b
    unfold fillAfter
    rw [hfill]
    split_ifs <;> omega
  · have href : loopRef (composeTrace A P g n) (A n) b = avgPower (A n) b := by
      unfold loopRef historyAfterWrite
      split_ifs with hc
      · rfl
      · exact (hhist _ (show ((composeTrace A P g n).historyIndex b % 64 + 64 - 20) % 64
            < min n 64 by rw [hidx]; omega)).trans (hconst n b).symm
    show loopDeviation (composeTrace A P g n) (A n) b ≤ 0.05
    unfold loopDeviation
    rw [href, sub_self, abs_zero, zero_div]
    norm_num

/-- Witness for `loop_flags_constant_run`: the 21st call of a constant run. -/
theorem loop_flags_witness :
    (compose (composeTrace (fun _ => constMat 1) (fun _ => constMat 0) (fun _ => 0) 20)
      (constMat 1) (constMat 0) 0).1.loop_flags.testBit (0 : Fin 5).val = true :=
  loop_flags_constant_run (fun _ => constMat 1) (fun _ => constMat 0) (fun _ => 0)
    (fun _ _ => rfl) 20 (le_refl 20) 0

/-! ## C1: the silence scenario

500 zero-valued samples through a reset lock-in bank on every channel, one
snapshot, then the first compose of a fresh composer with stage hint 1. -/

/-- A reset lock-in bank after 500 zero samples. -/
noncomputable def silenceLockIn : MultiBandLockIn :=
  (fun st => lockInProcess st 0)^[500] lockInReset

/-- The snapshot amplitude matrix of the silence run (identical channels). -/
noncomputable def silenceAmp : BandMatrix := fun _ b => (silenceLockIn.bands b).amplitude

/-- The snapshot phase matrix of the silence run. -/
noncomputable def silencePhases : BandMatrix := fun _ b => (silenceLockIn.bands b).phase

/-- The first compose of the silence run. -/
noncomputable def silenceResult : SigprintResult :=
  (compose composerInit silenceAmp silencePhases 1).1

lemma zeroRun_bands (n : ℕ) (b : Fin 5) :
    (((fun st => lockInProcess st 0)^[n] lockInReset).bands b).i = 0 ∧
    (((fun st => lockInProcess st 0)^[n] lockInReset).bands b).q = 0 ∧
    (((fun st => lockInProcess st 0)^[n] lockInReset).bands b).amplitude = 0 ∧
    (((fun st => lockInProcess st 0)^[n] lockInReset).bands b).phase = 0 := by
  induction n with
  | zero => exact ⟨rfl, rfl, rfl, rfl⟩
  | succ m ih =>
    obtain ⟨hi, hq, -, -⟩ := ih
    rw [Function.iterate_succ_apply']
    set st := (fun st => lockInProcess st 0)^[m] lockInReset with hst
    refine ⟨?_, ?_, ?_, ?_⟩
    · simp only [lockInProcess]
      rw [hi]
      ring
    · simp only [lockInProcess]
      rw [hq]
      ring
    · simp only [lockInProcess]
      rw [hi, hq]
      simp [Real.sqrt_zero]
    · simp only [lockInProcess]
      rw [hi, hq]
      simp only [mul_zero, zero_mul, add_zero, zero_add]
      exact atan2_zero_zero

lemma silenceAmp_zero (c : Fin 8) (b : Fin 5) : silenceAmp c b = 0 :=
  (zeroRun_bands 500 b).2.2.1

lemma silencePhases_eq : silencePhases = constMat 0 :=
  funext fun _ => funext fun b => (zeroRun_bands 500 b).2.2.2

lemma bandWeight_sum : ∑ b : Fin 5, bandWeight b = 1 := by
  rw [Fin.sum_univ_five]
  simp only [bandWeight, show ((0 : Fin 5)).val = 0 from rfl,
    show ((1 : Fin 5)).val = 1 from rfl, show ((2 : Fin 5)).val = 2 from rfl,
    show ((3 : Fin 5)).val = 3 from rfl, show ((4 : Fin 5)).val = 4 from rfl]
  norm_num

lemma bandCoherence_const_zero (b : Fin 5) : bandCoherence (constMat 0) b = 1 := by
  unfold bandCoherence constMat
  simp only [Real.sin_zero, Real.cos_zero, Finset.sum_const_zero, Finset.sum_const,
    Finset.card_univ, Fintype.card_fin, nsmul_eq_mul, mul_one, Nat.cast_ofNat]
  rw [show ((0 : ℝ) * 0 + 8 * 8) = 8 ^ 2 by norm_num,
    Real.sqrt_sq (by norm_num : (0 : ℝ) ≤ 8)]
  rw [show ((8 : ℝ) / 8) = 1 by norm_num]
  exact clampValue_of_mem (by norm_num) (by norm_num)

lemma globalCoherence_const_zero : globalCoherence (constMat 0) = 1 := by
  unfold globalCoherence
  rw [Finset.sum_congr rfl fun b _ => by rw [bandCoherence_const_zero b, one_mul],
    bandWeight_sum]
  exact clampValue_of_mem (by norm_num) (by norm_num)

lemma silenceResult_coherence : silenceResult.coherence = 1 := by
  show globalCoherence silencePhases = 1
  rw [silencePhases_eq]
  exact globalCoherence_const_zero

lemma coherenceValue_const_zero : coherenceValue (constMat 0) = 9999 := by
  unfold coherenceValue
  rw [globalCoherence_const_zero, one_mul,
    show ((9999 : ℝ)) = ((9999 : ℕ) : ℝ) by norm_num, round_natCast]
  norm_num [clampValue]

lemma silenceResult_digits8_11 :
    silenceResult.digits 8 = 9 ∧ silenceResult.digits 9 = 9 ∧
    silenceResult.digits 10 = 9 ∧ silenceResult.digits 11 = 9 := by
  refine ⟨?_, ?_, ?_, ?_⟩
  · show ((coherenceValue silencePhases / 1000) % 10).toNat = 9
    rw [silencePhases_eq, coherenceValue_const_zero]
    decide
  · show ((coherenceValue silencePhases / 100) % 10).toNat = 9
    rw [silencePhases_eq, coherenceValue_const_zero]
    decide
  · show ((coherenceValue silencePhases / 10) % 10).toNat = 9
    rw [silencePhases_eq, coherenceValue_const_zero]
    decide
  · show (coherenceValue silencePhases % 10).toNat = 9
    rw [silencePhases_eq, coherenceValue_const_zero]
    decide

lemma silenceResult_gate : silenceResult.gate_flags = 0 :=
  bitmaskOfProp_eq_zero
    (fun b' => composerInit.initialized = true ∧
      0.35 ≤ gateDelta composerInit silenceAmp b')
    fun _ hb' => absurd hb'.1 (by decide)

/-- C1 counterexample: on the silence run the claim's expected values are
wrong — the composed coherence equals 1 (all-zero phases are a maximally
coherent configuration), not ≤ 10⁻³, so digits 8–11 read 9,9,9,9. -/
theorem silence_claim_counterexample :
    ¬ ((∀ c b, silenceAmp c b < 1e-6) ∧
       silenceResult.coherence ≤ 1e-3 ∧
       (silenceResult.digits 8 = 0 ∧ silenceResult.digits 9 = 0 ∧
        silenceResult.digits 10 = 0 ∧ silenceResult.digits 11 = 0) ∧
       silenceResult.gate_flags = 0) := by
  intro h
  have hc := h.2.1
  rw [silenceResult_coherence] at hc
  norm_num at hc

/-- C1 (amended): after 500 zero samples on every channel, all snapshot
amplitudes are `0 < 10⁻⁶` and the first compose sets no gate bit, but —
because the all-zero phases are perfectly aligned — the coherence is 1 and
digits 8–11 are `9,9,9,9` (not ≤ 10⁻³ and `0,0,0,0` as the spec's silence
scenario expects). -/
theorem silence_behavior :
    (∀ c b, silenceAmp c b < 1e-6) ∧
    silenceResult.coherence = 1 ∧
    (silenceResult.digits 8 = 9 ∧ silenceResult.digits 9 = 9 ∧
     silenceResult.digits 10 = 9 ∧ silenceResult.digits 11 = 9) ∧
    silenceResult.gate_flags = 0 :=
  ⟨fun c b => by rw [silenceAmp_zero c b]; norm_num,
   silenceResult_coherence, silenceResult_digits8_11, silenceResult_gate⟩

end Sigprint
